import Mathlib

/-!
A shallow embedding of `src/TestRunner.js` (the cavy test runner).

Modelling choices:
* A test body (`f`) and a setup hook (`beforeEach`) are JavaScript async
  functions that either complete or throw; we embed each as an `Outcome`
  (its observable behaviour for the run).  The host component's
  `clearAsync()` and `reRender()` are external collaborators assumed to
  succeed (hardening against their failure is an explicit non-goal).
* Thrown JavaScript errors propagate through `await`; we embed fallible
  code in `Except String` (the error's `message`).  `runTest` catches
  only inside its `try` block, exactly as the source does.
* Wall-clock time is not embedded; the report's `duration` is a rational
  parameter standing for the float `(stop - start) / 1000` computed by
  the source.
* Network effects (`fetch`) are embedded as explicit inputs (the probe
  response / POST outcome) and an explicit output trace of issued
  requests and console lines.
* `JSON.stringify` is embedded as serialization to a JSON document tree
  (`Json`); deserialization reads the tree back.
-/

/-- Outcome of awaiting a JavaScript async callable: it either completes
normally or throws an error carrying a message. -/
inductive Outcome where
  | ok : Outcome
  | err (msg : String) : Outcome
deriving DecidableEq, Repr

/-- A test case: `{ description, f }` as destructured in `runTest`. -/
structure TestCase where
  description : String
  f : Outcome
deriving DecidableEq, Repr

/-- A test scope (suite): an ordered list of test cases and an optional
`beforeEach` hook. -/
structure TestScope where
  testCases : List TestCase
  beforeEach : Option Outcome
deriving DecidableEq, Repr

/-- One entry of the runner's `testResults` array:
`{ message, passed }`. -/
structure TestResult where
  message : String
  passed : Bool
deriving DecidableEq, Repr

/-- The mutable runner state threaded through a run:
`this.testResults` and `this.errorCount` (initialised to `[]` / `0` in
the constructor). -/
structure RunnerState where
  testResults : List TestResult
  errorCount : Nat
deriving DecidableEq, Repr

/-- `runTest(scope, test)`: awaits `clearAsync` (external, assumed to
succeed), awaits the `beforeEach` hook when the scope defines one —
note this happens BEFORE the `try` block, so a hook failure propagates —
calls `reRender`, then runs the body inside `try`/`catch`, appending a
passed or failed `TestResult` and bumping `errorCount` on failure. -/
def runTest (scope : TestScope) (test : TestCase) (st : RunnerState) :
    Except String RunnerState :=
  match scope.beforeEach with
  | some (Outcome.err m) => Except.error m
  | _ =>
    match test.f with
    | Outcome.ok =>
      Except.ok { st with
        testResults := st.testResults ++
          [{ message := test.description ++ "  ✅", passed := true }] }
    | Outcome.err m =>
      Except.ok {
        testResults := st.testResults ++
          [{ message := test.description ++ "  ❌\n   " ++ m, passed := false }],
        errorCount := st.errorCount + 1 }

/-- The inner `for (j ...)` loop of `runTestSuites`: run each test case of
a scope in order, awaiting each before the next. -/
def runCases (scope : TestScope) (cases : List TestCase) (st : RunnerState) :
    Except String RunnerState :=
  match cases with
  | [] => Except.ok st
  | c :: rest => do
    let st' ← runTest scope c st
    runCases scope rest st'

/-- The outer `for (i ...)` loop of `runTestSuites`: run each suite in
order. -/
def runSuitesLoop (suites : List TestScope) (st : RunnerState) :
    Except String RunnerState :=
  match suites with
  | [] => Except.ok st
  | s :: rest => do
    let st' ← runCases s s.testCases st
    runSuitesLoop rest st'

/-- The `TestResult` that `runTest` appends for a test case (once the
scope's hook did not throw): the source's template strings. -/
def resultOf (test : TestCase) : TestResult :=
  match test.f with
  | Outcome.ok => { message := test.description ++ "  ✅", passed := true }
  | Outcome.err m =>
      { message := test.description ++ "  ❌\n   " ++ m, passed := false }

/-- Whether a scope's setup hook completes without throwing (absent
hooks trivially do). -/
def setupOk (scope : TestScope) : Bool :=
  match scope.beforeEach with
  | some (Outcome.err _) => false
  | _ => true

/-- The flattened (suite, case) plan in input order. -/
def flatCases (suites : List TestScope) : List TestCase :=
  (suites.map TestScope.testCases).flatten

/-- Number of test cases whose body throws. -/
def failCount (cases : List TestCase) : Nat :=
  (cases.filter fun c =>
    match c.f with
    | Outcome.err _ => true
    | Outcome.ok => false).length

/-- The `errorCount` increment a single case contributes. -/
def failInc (test : TestCase) : Nat :=
  match test.f with
  | Outcome.err _ => 1
  | Outcome.ok => 0

theorem failCount_cons (c : TestCase) (rest : List TestCase) :
    failCount (c :: rest) = failInc c + failCount rest := by
  cases c with
  | mk d f =>
    cases f with
    | ok => simp [failCount, failInc, List.filter_cons]
    | err m =>
      simp [failCount, failInc, List.filter_cons]
      omega

theorem failCount_append (a b : List TestCase) :
    failCount (a ++ b) = failCount a + failCount b := by
  simp [failCount, List.filter_append]

theorem runTest_ok (scope : TestScope) (test : TestCase) (st : RunnerState)
    (h : setupOk scope = true) :
    runTest scope test st =
      Except.ok { testResults := st.testResults ++ [resultOf test],
                  errorCount := st.errorCount + failInc test } := by
  cases scope with
  | mk cs be =>
    cases test with
    | mk d f =>
      cases be with
      | none => cases f <;> rfl
      | some o =>
        cases o with
        | ok => cases f <;> rfl
        | err m => simp [setupOk] at h

theorem runCases_ok (scope : TestScope) (cases : List TestCase)
    (st : RunnerState) (h : setupOk scope = true) :
    runCases scope cases st =
      Except.ok { testResults := st.testResults ++ cases.map resultOf,
                  errorCount := st.errorCount + failCount cases } := by
  induction cases generalizing st with
  | nil => simp [runCases, failCount]
  | cons c rest ih =>
    rw [runCases, runTest_ok scope c st h]
    show runCases scope rest _ = _
    rw [ih]
    simp [failCount_cons, List.append_assoc]
    omega

theorem runSuitesLoop_ok (suites : List TestScope) (st : RunnerState)
    (h : ∀ s ∈ suites, setupOk s = true) :
    runSuitesLoop suites st =
      Except.ok { testResults := st.testResults ++ (flatCases suites).map resultOf,
                  errorCount := st.errorCount + failCount (flatCases suites) } := by
  induction suites generalizing st with
  | nil => simp [runSuitesLoop, flatCases, failCount]
  | cons s rest ih =>
    rw [runSuitesLoop, runCases_ok s s.testCases st (h s (by simp))]
    show runSuitesLoop rest _ = _
    rw [ih _ (fun t ht => h t (by simp [ht]))]
    simp [flatCases, failCount_append, List.append_assoc]
    omega

/-! ### JavaScript values for the deprecated `sendReport` prop -/

/-- The JavaScript values relevant to the `sendReport` prop: the prop
can be left out (`undefined`), or set to `null`, a boolean, a number or
a string. -/
inductive JSVal where
  | undef : JSVal
  | null : JSVal
  | bool (b : Bool) : JSVal
  | num (n : Int) : JSVal
  | str (s : String) : JSVal
deriving DecidableEq, Repr

/-- JavaScript loose inequality `x != undefined`: `undefined` and `null`
both compare loosely equal to `undefined`; every other value differs. -/
def looseNeUndefined : JSVal → Bool
  | JSVal.undef => false
  | JSVal.null => false
  | _ => true

/-- JavaScript truthiness, as tested by `if (!this.shouldSendReport)`. -/
def truthy : JSVal → Bool
  | JSVal.undef => false
  | JSVal.null => false
  | JSVal.bool b => b
  | JSVal.num n => n != 0
  | JSVal.str s => s ≠ ""

/-! ### The report object and its JSON serialization -/

/-- The report object compiled in `runTestSuites`:
`{ results, errorCount, duration }`.  `duration` is the float
`(stop - start) / 1000`, embedded as a rational parameter since
wall-clock time is outside the model. -/
structure Report where
  results : List TestResult
  errorCount : Nat
  duration : Rat
deriving DecidableEq, Repr

/-- A JSON document tree, the embedding of what `JSON.stringify`
serializes. -/
inductive Json where
  | null : Json
  | bool (b : Bool) : Json
  | num (q : Rat) : Json
  | str (s : String) : Json
  | arr (elements : List Json) : Json
  | obj (fields : List (String × Json)) : Json

/-- Serialization of one `TestResult` (a field of the report body). -/
def encodeResult (r : TestResult) : Json :=
  Json.obj [("message", Json.str r.message), ("passed", Json.bool r.passed)]

/-- `JSON.stringify(report)`: the JSON document the POST body carries. -/
def encodeReport (r : Report) : Json :=
  Json.obj [("results", Json.arr (r.results.map encodeResult)),
            ("errorCount", Json.num (r.errorCount : Rat)),
            ("duration", Json.num r.duration)]

/-- Deserialization of one result entry. -/
def decodeResult : Json → Option TestResult
  | Json.obj [("message", Json.str m), ("passed", Json.bool b)] =>
      some { message := m, passed := b }
  | _ => none

/-- Deserialization of the results array. -/
def decodeResultList : List Json → Option (List TestResult)
  | [] => some []
  | j :: rest => do
      let r ← decodeResult j
      let rs ← decodeResultList rest
      pure (r :: rs)

/-- Read a JSON number back as a non-negative integer count. -/
def decodeCount (q : Rat) : Option Nat :=
  if q.den = 1 ∧ 0 ≤ q.num then some q.num.toNat else none

/-- Deserialization of a whole report payload. -/
def decodeReport : Json → Option Report
  | Json.obj [("results", Json.arr js),
              ("errorCount", Json.num e),
              ("duration", Json.num d)] => do
      let rs ← decodeResultList js
      let ec ← decodeCount e
      pure { results := rs, errorCount := ec, duration := d }
  | _ => none

/-! ### The reporter: probe and delivery -/

/-- An HTTP request the runner issues via `fetch`. -/
structure Request where
  method : String
  url : String
  body : Option Json
  headers : List (String × String)

/-- Outcome of awaiting the probe `fetch(url)` followed by
`response.text()`: a response body, or a transport error with a
message. -/
inductive FetchResult where
  | success (body : String) : FetchResult
  | failure (msg : String) : FetchResult
deriving DecidableEq, Repr

/-- Outcome of awaiting the delivery POST. -/
inductive PostOutcome where
  | ok : PostOutcome
  | fail (msg : String) : PostOutcome
deriving DecidableEq, Repr

/-- What the reporting phase observably does: the requests issued, in
order, and the console lines printed. -/
structure NetTrace where
  requests : List Request
  logs : List String

/-- The probe request: `fetch('http://127.0.0.1:8082/')`, a GET with no
body. -/
def probeRequest : Request :=
  { method := "GET", url := "http://127.0.0.1:8082/", body := none, headers := [] }

/-- The delivery request built in `send`: a POST of the stringified
report with a JSON content type. -/
def postRequest (report : Report) : Request :=
  { method := "POST", url := "http://127.0.0.1:8082/report",
    body := some (encodeReport report),
    headers := [("Content-Type", "application/json")] }

/-- `handleError(error, url)`: classify a delivery failure on the
console; a message matching `/Network request failed/` gets the
collector-not-running hint, anything else the raw message. -/
def handleErrorLogs (msg url : String) : List String :=
  if (msg.splitOn "Network request failed").length > 1 then
    ["Cavy test report server is not running at " ++ url,
     "If you are using cavy-cli, maybe it's not set up correctly or not reachable from this device?"]
  else
    ["Error sending test results", msg]

/-- `send(report)`: issues the POST; logs confirmation on success and
classifies the failure otherwise; never raises to the caller. -/
def send (report : Report) (postOut : PostOutcome) : NetTrace :=
  { requests := [postRequest report],
    logs :=
      match postOut with
      | PostOutcome.ok => ["Cavy test report successfully sent to cavy-cli"]
      | PostOutcome.fail m => handleErrorLogs m "http://127.0.0.1:8082/report" }

/-- The skip notice logged by `reportResults`'s catch block. -/
def skipMsg (reason : String) : String :=
  "Skipping sending test report to cavy-cli - " ++ reason ++ "."

/-- `reportResults(report)`: probe the collector; proceed to `send` only
when the body is exactly `cavy-cli running`; an unexpected body throws
`Unexpected response` into the same catch that swallows transport
errors, which logs the skip notice; always returns normally. -/
def reportResults (report : Report) (probe : FetchResult)
    (postOut : PostOutcome) : NetTrace :=
  match probe with
  | FetchResult.failure m =>
      { requests := [probeRequest], logs := [skipMsg m] }
  | FetchResult.success text =>
      if text = "cavy-cli running" then
        let t := send report postOut
        { requests := probeRequest :: t.requests, logs := t.logs }
      else
        { requests := [probeRequest], logs := [skipMsg "Unexpected response"] }

/-- The deprecation warning printed when `sendReport` is explicitly
supplied. -/
def deprecationMsg : String :=
  "Deprecation warning: using the `sendReport` prop is deprecated. By default, Cavy now checks whether the cavy-cli server is running and sends a report if a connection is detected."

/-- The tail of `runTestSuites` after the report is compiled: when
`this.shouldSendReport != undefined` (JavaScript loose inequality) the
deprecation warning is printed and a falsy value returns before any
network activity; otherwise (or when the value is truthy) the reporter
runs. -/
def reportPhase (shouldSendReport : JSVal) (report : Report)
    (probe : FetchResult) (postOut : PostOutcome) : NetTrace :=
  if looseNeUndefined shouldSendReport then
    if !truthy shouldSendReport then
      { requests := [], logs := [deprecationMsg] }
    else
      let t := reportResults report probe postOut
      { requests := t.requests, logs := deprecationMsg :: t.logs }
  else
    reportResults report probe postOut

/-- Compiling the report object from the runner state. -/
def compileReport (st : RunnerState) (duration : Rat) : Report :=
  { results := st.testResults, errorCount := st.errorCount,
    duration := duration }

/-- `runTestSuites()`: run every suite's cases in order starting from
the freshly-constructed state, compile the report, then run the
reporting phase.  A hook failure escapes the loop and aborts the whole
method (the promise rejects); the report is then never compiled. -/
def runTestSuites (suites : List TestScope) (shouldSendReport : JSVal)
    (duration : Rat) (probe : FetchResult) (postOut : PostOutcome) :
    Except String (Report × NetTrace) := do
  let st ← runSuitesLoop suites { testResults := [], errorCount := 0 }
  let report := compileReport st duration
  pure (report, reportPhase shouldSendReport report probe postOut)

/-! ### Event-loop trace: `run()` resolves without awaiting the suites

`run()` awaits the optional startup pause and then calls
`this.runTestSuites()` WITHOUT `await`: run's async body finishes — and
the promise it returned resolves — as soon as `runTestSuites` hits its
first suspension point.  With at least one test case that first
suspension is `await this.component.clearAsync()` inside the first
`runTest`; the remaining work (the setup hook, the re-render, every test
body, the report) happens in later event-loop turns, after `run()`'s
promise has resolved.  With no test cases the loops finish synchronously
and the first suspension is the reporter's probe fetch (or none at all
when reporting is suppressed).  `runTrace` records this global order of
observable events for one invocation of `run`. -/
inductive Event where
  | pause : Event
  | logStarted : Event
  | clearCall : Event
  | setupRun : Event
  | reRenderCall : Event
  | bodyExec (d : String) : Event
  | resultRecorded (d : String) : Event
  | runResolved : Event
  | logStopped : Event
  | reportCompiled : Event
  | reporterRun : Event
deriving DecidableEq, Repr

/-- Events of one `runTest` after its initial `clearAsync` call, paired
with whether the case completed (a hook failure aborts the run, so the
trace stops). -/
def caseTailEvents (scope : TestScope) (test : TestCase) :
    List Event × Bool :=
  match scope.beforeEach with
  | some (Outcome.err _) => ([Event.setupRun], false)
  | some Outcome.ok =>
      ([Event.setupRun, Event.reRenderCall, Event.bodyExec test.description,
        Event.resultRecorded test.description], true)
  | none =>
      ([Event.reRenderCall, Event.bodyExec test.description,
        Event.resultRecorded test.description], true)

/-- Events of one `runTest`, starting with its `clearAsync` call. -/
def caseEvents (scope : TestScope) (test : TestCase) : List Event × Bool :=
  (Event.clearCall :: (caseTailEvents scope test).1,
   (caseTailEvents scope test).2)

/-- Events of the inner case loop; stops at an aborting case. -/
def casesEvents (scope : TestScope) : List TestCase → List Event × Bool
  | [] => ([], true)
  | c :: rest =>
    if (caseEvents scope c).2 then
      ((caseEvents scope c).1 ++ (casesEvents scope rest).1,
       (casesEvents scope rest).2)
    else
      ((caseEvents scope c).1, false)

/-- Events of the outer suite loop; stops at an aborting case. -/
def suitesEvents : List TestScope → List Event × Bool
  | [] => ([], true)
  | s :: rest =>
    if (casesEvents s s.testCases).2 then
      ((casesEvents s s.testCases).1 ++ (suitesEvents rest).1,
       (suitesEvents rest).2)
    else
      ((casesEvents s s.testCases).1, false)

/-- Whether `runTestSuites` reaches `reportResults` at all (it returns
early when `sendReport` was explicitly supplied and falsy). -/
def willReport (shouldSendReport : JSVal) : Bool :=
  !(looseNeUndefined shouldSendReport && !truthy shouldSendReport)

/-- The global event order of one `run(startDelay)` invocation: the
optional pause, then `runTestSuites`'s synchronous prefix up to its
first suspension, then the resolution of `run`'s own promise, then the
rest of the suite execution and reporting. -/
def runTrace (startDelay : Nat) (suites : List TestScope)
    (shouldSendReport : JSVal) : List Event :=
  (if startDelay ≠ 0 then [Event.pause] else []) ++ [Event.logStarted] ++
  (match suitesEvents suites with
   | ([], _) =>
      [Event.logStopped, Event.reportCompiled] ++
      (if willReport shouldSendReport then
        [Event.runResolved, Event.reporterRun]
       else [Event.runResolved])
   | (e :: rest, done) =>
      [e, Event.runResolved] ++ rest ++
      (if done then
        [Event.logStopped, Event.reportCompiled] ++
        (if willReport shouldSendReport then [Event.reporterRun] else [])
       else []))

theorem casesEvents_cons_fst (s : TestScope) (c : TestCase)
    (cs : List TestCase) :
    ∃ t, (casesEvents s (c :: cs)).1 = Event.clearCall :: t := by
  rw [casesEvents]
  by_cases h : (caseEvents s c).2 = true
  · rw [if_pos h]
    exact ⟨_, rfl⟩
  · rw [if_neg h]
    exact ⟨_, rfl⟩

theorem suitesEvents_head (suites : List TestScope)
    (h : flatCases suites ≠ []) :
    ∃ rest done, suitesEvents suites = (Event.clearCall :: rest, done) := by
  induction suites with
  | nil => simp [flatCases] at h
  | cons s rest ih =>
    cases hc : s.testCases with
    | nil =>
      have hflat : flatCases rest ≠ [] := by
        simpa [flatCases, hc] using h
      obtain ⟨r, d, hr⟩ := ih hflat
      refine ⟨r, d, ?_⟩
      simp [suitesEvents, hc, casesEvents, hr]
    | cons c cs =>
      obtain ⟨t, ht⟩ := casesEvents_cons_fst s c cs
      rw [suitesEvents, hc]
      by_cases hco : (casesEvents s (c :: cs)).2 = true
      · rw [if_pos hco, ht]
        exact ⟨_, _, rfl⟩
      · rw [if_neg hco, ht]
        exact ⟨_, _, rfl⟩

/-! ### Inversion lemmas: what a completed run must look like -/

theorem runTest_ok_inv (scope : TestScope) (test : TestCase)
    (st st' : RunnerState) (h : runTest scope test st = Except.ok st') :
    st' = { testResults := st.testResults ++ [resultOf test],
            errorCount := st.errorCount + failInc test } := by
  cases scope with
  | mk cs be =>
    cases test with
    | mk d f =>
      cases be with
      | none =>
        cases f with
        | ok => exact (Except.ok.inj h).symm
        | err m => exact (Except.ok.inj h).symm
      | some o =>
        cases o with
        | ok =>
          cases f with
          | ok => exact (Except.ok.inj h).symm
          | err m => exact (Except.ok.inj h).symm
        | err m => exact Except.noConfusion h

theorem runCases_ok_inv (scope : TestScope) (cases : List TestCase)
    (st st' : RunnerState) (h : runCases scope cases st = Except.ok st') :
    st'.testResults = st.testResults ++ cases.map resultOf ∧
    st'.errorCount = st.errorCount + failCount cases := by
  induction cases generalizing st with
  | nil =>
    have h' : st = st' := Except.ok.inj h
    subst h'
    simp [failCount]
  | cons c rest ih =>
    rw [runCases] at h
    cases hrt : runTest scope c st with
    | error e =>
      rw [hrt] at h
      exact Except.noConfusion h
    | ok st1 =>
      rw [hrt] at h
      have h1 := runTest_ok_inv scope c st st1 hrt
      obtain ⟨ha, hb⟩ := ih st1 h
      subst h1
      refine ⟨?_, ?_⟩
      · simp [ha, List.append_assoc]
      · simp [hb, failCount_cons]
        omega

theorem runSuitesLoop_ok_inv (suites : List TestScope)
    (st st' : RunnerState) (h : runSuitesLoop suites st = Except.ok st') :
    st'.testResults = st.testResults ++ (flatCases suites).map resultOf ∧
    st'.errorCount = st.errorCount + failCount (flatCases suites) := by
  induction suites generalizing st with
  | nil =>
    have h' : st = st' := Except.ok.inj h
    subst h'
    simp [flatCases, failCount]
  | cons s rest ih =>
    rw [runSuitesLoop] at h
    cases hrc : runCases s s.testCases st with
    | error e =>
      rw [hrc] at h
      exact Except.noConfusion h
    | ok st1 =>
      rw [hrc] at h
      obtain ⟨ha1, hb1⟩ := runCases_ok_inv s s.testCases st st1 hrc
      obtain ⟨ha2, hb2⟩ := ih st1 h
      refine ⟨?_, ?_⟩
      · simp [ha2, ha1, flatCases, List.append_assoc]
      · simp [hb2, hb1, flatCases, failCount_append]
        omega

theorem runTestSuites_inv (suites : List TestScope) (ssr : JSVal)
    (dur : Rat) (probe : FetchResult) (postOut : PostOutcome)
    (report : Report) (trace : NetTrace)
    (h : runTestSuites suites ssr dur probe postOut =
      Except.ok (report, trace)) :
    ∃ st, runSuitesLoop suites { testResults := [], errorCount := 0 } =
        Except.ok st ∧
      report = compileReport st dur ∧
      trace = reportPhase ssr report probe postOut := by
  cases hs : runSuitesLoop suites { testResults := [], errorCount := 0 } with
  | error e =>
    rw [runTestSuites, hs] at h
    exact Except.noConfusion h
  | ok st =>
    rw [runTestSuites, hs] at h
    have h2 : (compileReport st dur,
        reportPhase ssr (compileReport st dur) probe postOut) =
        (report, trace) := Except.ok.inj h
    have hr : compileReport st dur = report := congrArg Prod.fst h2
    have ht : reportPhase ssr (compileReport st dur) probe postOut = trace :=
      congrArg Prod.snd h2
    exact ⟨st, rfl, hr.symm, by rw [← ht, hr]⟩

/-! ### Counting failed results -/

/-- Number of entries of a results list with `passed == false`. -/
def failedResults (rs : List TestResult) : Nat :=
  (rs.filter fun r => r.passed == false).length

theorem failedResults_map (cases : List TestCase) :
    failedResults (cases.map resultOf) = failCount cases := by
  induction cases with
  | nil => rfl
  | cons c rest ih =>
    cases hc : c.f with
    | ok =>
      simp [failedResults, List.filter_cons, resultOf, hc, failCount_cons,
        failInc] at ih ⊢
      omega
    | err m =>
      simp [failedResults, List.filter_cons, resultOf, hc, failCount_cons,
        failInc] at ih ⊢
      omega

theorem flatCases_length (suites : List TestScope) :
    (flatCases suites).length =
      (suites.map fun s => s.testCases.length).sum := by
  induction suites with
  | nil => rfl
  | cons s rest ih => simp [flatCases, ih, Function.comp_def]

/-! ### JSON round trip -/

theorem decodeResult_encodeResult (r : TestResult) :
    decodeResult (encodeResult r) = some r := by
  cases r with
  | mk m b => rfl

theorem decodeResultList_encode (rs : List TestResult) :
    decodeResultList (rs.map encodeResult) = some rs := by
  induction rs with
  | nil => rfl
  | cons r rest ih =>
    simp [decodeResultList, decodeResult_encodeResult, ih]

theorem decodeCount_natCast (n : Nat) : decodeCount (n : Rat) = some n := by
  simp [decodeCount, Rat.num_natCast, Rat.den_natCast]

theorem decodeReport_encodeReport (r : Report) :
    decodeReport (encodeReport r) = some r := by
  cases r with
  | mk rs ec d =>
    simp [encodeReport, decodeReport, decodeResultList_encode,
      decodeCount_natCast]

/-! ### The probe is always the first request -/

theorem reportResults_head (report : Report) (probe : FetchResult)
    (postOut : PostOutcome) :
    (reportResults report probe postOut).requests.head? =
      some probeRequest := by
  cases probe with
  | failure m => rfl
  | success text =>
    by_cases ht : text = "cavy-cli running"
    · subst ht
      rfl
    · simp [reportResults, ht]

/-! ### Example inputs -/

/-- The spec's example plan: S1 with failing case A then passing case B,
S2 with passing case C. -/
def exPlan : List TestScope :=
  [{ testCases := [{ description := "A", f := Outcome.err "A broke" },
                   { description := "B", f := Outcome.ok }],
     beforeEach := none },
   { testCases := [{ description := "C", f := Outcome.ok }],
     beforeEach := none }]

/-- The report the example plan compiles (duration 0 in the model). -/
def exReport : Report :=
  { results := [{ message := "A  ❌\n   A broke", passed := false },
                { message := "B  ✅", passed := true },
                { message := "C  ✅", passed := true }],
    errorCount := 1, duration := 0 }

/-- The reporting trace of the example run: probe transport error "x",
delivery skipped. -/
def exTrace : NetTrace :=
  { requests := [probeRequest], logs := [skipMsg "x"] }

/-- A suite whose setup hook throws, with two cases that would pass. -/
def hookFailScope : TestScope :=
  { testCases := [{ description := "A", f := Outcome.ok },
                  { description := "B", f := Outcome.ok }],
    beforeEach := some (Outcome.err "boom") }

/-! ### The claims -/

/-- C1: when every setup hook completes, a run executes every case of
every suite no matter which bodies throw: the run completes with one
TestResult per flattened case, in order, and errorCount equal to the
number of failing bodies.  At the spec's example
[S1{A fails, B passes}, S2{C passes}] this yields results
[A:fail, B:pass, C:pass] with errorCount = 1 (see the witness). -/
theorem claim_c1_case_failure_contained (suites : List TestScope)
    (ssr : JSVal) (dur : Rat) (probe : FetchResult) (postOut : PostOutcome)
    (h : ∀ s ∈ suites, setupOk s = true) :
    ∃ trace, runTestSuites suites ssr dur probe postOut =
      Except.ok ({ results := (flatCases suites).map resultOf,
                   errorCount := failCount (flatCases suites),
                   duration := dur }, trace) := by
  have hloop := runSuitesLoop_ok suites { testResults := [], errorCount := 0 } h
  simp only [List.nil_append, Nat.zero_add] at hloop
  refine ⟨reportPhase ssr
    ⟨(flatCases suites).map resultOf, failCount (flatCases suites), dur⟩
    probe postOut, ?_⟩
  rw [runTestSuites, hloop]
  rfl

theorem claim_c1_case_failure_contained_witness :
    (∀ s ∈ exPlan, setupOk s = true) ∧
    (∃ trace, runTestSuites exPlan JSVal.undef 0 (FetchResult.failure "x")
        PostOutcome.ok =
      Except.ok ({ results := (flatCases exPlan).map resultOf,
                   errorCount := failCount (flatCases exPlan),
                   duration := 0 }, trace)) ∧
    (flatCases exPlan).map resultOf = exReport.results ∧
    exReport.results.map TestResult.passed = [false, true, true] ∧
    failCount (flatCases exPlan) = 1 :=
  ⟨by decide, claim_c1_case_failure_contained exPlan JSVal.undef 0
      (FetchResult.failure "x") PostOutcome.ok (by decide), rfl, rfl, rfl⟩

/-- C2 (counterexample): a suite whose beforeEach throws "boom" refutes the
claim that a hook failure is caught like a body failure: the run rejects
with the hook's error instead of producing a report containing a failed
TestResult for the case. -/
theorem claim_c2_counterexample :
    runTestSuites [hookFailScope] JSVal.undef 0 (FetchResult.failure "x")
      PostOutcome.ok = Except.error "boom" := rfl

/-- C2 (amended): a failure raised by the setup hook is NOT caught together
with the body: `runTest` rejects with the hook's error, appends no
TestResult, leaves errorCount untouched, and the rejection propagates out
of the case (aborting the remaining cases, unlike a body failure). -/
theorem claim_c2_hook_failure_propagates (scope : TestScope)
    (test : TestCase) (st : RunnerState) (m : String)
    (h : scope.beforeEach = some (Outcome.err m)) :
    runTest scope test st = Except.error m := by
  unfold runTest
  rw [h]

theorem claim_c2_hook_failure_propagates_witness :
    hookFailScope.beforeEach = some (Outcome.err "boom") ∧
    runTest hookFailScope { description := "A", f := Outcome.ok }
      { testResults := [], errorCount := 0 } = Except.error "boom" :=
  ⟨rfl, claim_c2_hook_failure_propagates hookFailScope
    { description := "A", f := Outcome.ok }
    { testResults := [], errorCount := 0 } "boom" rfl⟩

/-- C3: for every completed run, the compiled report's errorCount equals
the number of entries of its results list with passed == false. -/
theorem claim_c3_errorCount_matches_failures (suites : List TestScope)
    (ssr : JSVal) (dur : Rat) (probe : FetchResult) (postOut : PostOutcome)
    (report : Report) (trace : NetTrace)
    (h : runTestSuites suites ssr dur probe postOut =
      Except.ok (report, trace)) :
    report.errorCount = failedResults report.results := by
  obtain ⟨st, hs, hr, -⟩ :=
    runTestSuites_inv suites ssr dur probe postOut report trace h
  obtain ⟨ha, hb⟩ := runSuitesLoop_ok_inv suites _ st hs
  subst hr
  simp [compileReport, ha, hb, failedResults_map]

theorem claim_c3_errorCount_matches_failures_witness :
    runTestSuites exPlan JSVal.undef 0 (FetchResult.failure "x")
      PostOutcome.ok = Except.ok (exReport, exTrace) ∧
    exReport.errorCount = failedResults exReport.results :=
  ⟨rfl, claim_c3_errorCount_matches_failures exPlan JSVal.undef 0
    (FetchResult.failure "x") PostOutcome.ok exReport exTrace rfl⟩

/-- C4: for every completed run, the report's results list has exactly one
entry per test case across all scopes, whatever the pass/fail mix. -/
theorem claim_c4_results_length (suites : List TestScope) (ssr : JSVal)
    (dur : Rat) (probe : FetchResult) (postOut : PostOutcome)
    (report : Report) (trace : NetTrace)
    (h : runTestSuites suites ssr dur probe postOut =
      Except.ok (report, trace)) :
    report.results.length = (suites.map fun s => s.testCases.length).sum := by
  obtain ⟨st, hs, hr, -⟩ :=
    runTestSuites_inv suites ssr dur probe postOut report trace h
  obtain ⟨ha, -⟩ := runSuitesLoop_ok_inv suites _ st hs
  subst hr
  simp [compileReport, ha, flatCases_length]

theorem claim_c4_results_length_witness :
    runTestSuites exPlan JSVal.undef 0 (FetchResult.failure "x")
      PostOutcome.ok = Except.ok (exReport, exTrace) ∧
    exReport.results.length = (exPlan.map fun s => s.testCases.length).sum ∧
    (exPlan.map fun s => s.testCases.length).sum = 3 :=
  ⟨rfl, claim_c4_results_length exPlan JSVal.undef 0
    (FetchResult.failure "x") PostOutcome.ok exReport exTrace rfl, rfl⟩

/-- C5: for every completed run, the results list is exactly the flattened
input order of (suite, case) pairs, each case mapped to its TestResult;
no reordering is ever observed. -/
theorem claim_c5_results_in_input_order (suites : List TestScope)
    (ssr : JSVal) (dur : Rat) (probe : FetchResult) (postOut : PostOutcome)
    (report : Report) (trace : NetTrace)
    (h : runTestSuites suites ssr dur probe postOut =
      Except.ok (report, trace)) :
    report.results = (flatCases suites).map resultOf := by
  obtain ⟨st, hs, hr, -⟩ :=
    runTestSuites_inv suites ssr dur probe postOut report trace h
  obtain ⟨ha, -⟩ := runSuitesLoop_ok_inv suites _ st hs
  subst hr
  simp [compileReport, ha]

theorem claim_c5_results_in_input_order_witness :
    runTestSuites exPlan JSVal.undef 0 (FetchResult.failure "x")
      PostOutcome.ok = Except.ok (exReport, exTrace) ∧
    exReport.results = (flatCases exPlan).map resultOf :=
  ⟨rfl, claim_c5_results_in_input_order exPlan JSVal.undef 0
    (FetchResult.failure "x") PostOutcome.ok exReport exTrace rfl⟩

/-- C6: the probe is a GET to the fixed collector address, issued first;
delivery happens iff the response body is exactly "cavy-cli running"; any
other body or any transport error skips the send, logging one notice that
names the underlying reason; `reportResults` is a total function, so the
call always returns normally to its caller. -/
theorem claim_c6_probe_gates_delivery (report : Report)
    (probe : FetchResult) (postOut : PostOutcome) :
    (reportResults report probe postOut).requests.head? = some probeRequest ∧
    probeRequest.method = "GET" ∧
    probeRequest.url = "http://127.0.0.1:8082/" ∧
    ((((reportResults report probe postOut).requests.filter
        fun r => r.method == "POST").length = 1) ↔
      probe = FetchResult.success "cavy-cli running") ∧
    (∀ text, probe = FetchResult.success text → text ≠ "cavy-cli running" →
      reportResults report probe postOut =
        { requests := [probeRequest],
          logs := [skipMsg "Unexpected response"] }) ∧
    (∀ m, probe = FetchResult.failure m →
      reportResults report probe postOut =
        { requests := [probeRequest], logs := [skipMsg m] }) := by
  refine ⟨reportResults_head report probe postOut, rfl, rfl, ?_, ?_, ?_⟩
  · cases probe with
    | failure m => simp [reportResults, probeRequest]
    | success text =>
      by_cases ht : text = "cavy-cli running"
      · subst ht
        simp [reportResults, send, probeRequest, postRequest]
      · simp [reportResults, ht, probeRequest]
  · intro text h1 h2
    subst h1
    simp [reportResults, h2]
  · intro m h1
    subst h1
    rfl

theorem claim_c6_probe_gates_delivery_witness :
    reportResults exReport (FetchResult.failure "refused") PostOutcome.ok =
      { requests := [probeRequest], logs := [skipMsg "refused"] } ∧
    reportResults exReport (FetchResult.success "nope") PostOutcome.ok =
      { requests := [probeRequest],
        logs := [skipMsg "Unexpected response"] } ∧
    (((reportResults exReport (FetchResult.success "cavy-cli running")
        PostOutcome.ok).requests.filter
          fun r => r.method == "POST").length = 1) :=
  ⟨(claim_c6_probe_gates_delivery exReport (FetchResult.failure "refused")
      PostOutcome.ok).2.2.2.2.2 "refused" rfl,
   (claim_c6_probe_gates_delivery exReport (FetchResult.success "nope")
      PostOutcome.ok).2.2.2.2.1 "nope" rfl (by decide),
   ((claim_c6_probe_gates_delivery exReport
      (FetchResult.success "cavy-cli running")
      PostOutcome.ok).2.2.2.1).mpr rfl⟩

/-- C7: a sendReport toggle explicitly set to false logs the deprecation
warning and issues no request at all, whatever the collector would answer;
an absent (undefined) toggle always reaches reportResults, whose probe —
issued first — decides the outcome. -/
theorem claim_c7_toggle_false_suppresses (report : Report)
    (probe : FetchResult) (postOut : PostOutcome) :
    reportPhase (JSVal.bool false) report probe postOut =
      { requests := [], logs := [deprecationMsg] } ∧
    reportPhase JSVal.undef report probe postOut =
      reportResults report probe postOut ∧
    (reportPhase JSVal.undef report probe postOut).requests.head? =
      some probeRequest :=
  ⟨rfl, rfl, reportResults_head report probe postOut⟩

/-- C8: after the exact acknowledgement body "cavy-cli running", exactly
one POST is issued — to the delivery endpoint, with the JSON content type,
carrying the serialized report — and the payload deserializes back to the
original results, errorCount and duration. -/
theorem claim_c8_post_roundtrip (report : Report) (postOut : PostOutcome) :
    (reportResults report (FetchResult.success "cavy-cli running")
      postOut).requests = [probeRequest, postRequest report] ∧
    (((reportResults report (FetchResult.success "cavy-cli running")
        postOut).requests.filter fun r => r.method == "POST").length = 1) ∧
    (postRequest report).method = "POST" ∧
    (postRequest report).url = "http://127.0.0.1:8082/report" ∧
    (postRequest report).headers = [("Content-Type", "application/json")] ∧
    (postRequest report).body = some (encodeReport report) ∧
    decodeReport (encodeReport report) = some report :=
  ⟨rfl, rfl, rfl, rfl, rfl, rfl, decodeReport_encodeReport report⟩

/-- C9: run() does not await runTestSuites: whenever the plan holds at
least one test case, the global event order puts the resolution of run's
promise strictly before every test-body execution, before the report is
compiled and before the reporter is invoked. -/
theorem claim_c9_run_resolves_early (startDelay : Nat)
    (suites : List TestScope) (ssr : JSVal)
    (h : flatCases suites ≠ []) :
    ∃ pre post, runTrace startDelay suites ssr =
        pre ++ Event.runResolved :: post ∧
      (∀ d, Event.bodyExec d ∉ pre) ∧
      Event.reportCompiled ∉ pre ∧ Event.reporterRun ∉ pre := by
  obtain ⟨r, d, hr⟩ := suitesEvents_head suites h
  refine ⟨(if startDelay ≠ 0 then [Event.pause] else []) ++
      [Event.logStarted, Event.clearCall],
    r ++ (if d then [Event.logStopped, Event.reportCompiled] ++
      (if willReport ssr then [Event.reporterRun] else []) else []),
    ?_, ?_, ?_, ?_⟩
  · rw [runTrace, hr]
    simp
  · intro d'
    by_cases h0 : startDelay ≠ 0 <;> simp [h0]
  · by_cases h0 : startDelay ≠ 0 <;> simp [h0]
  · by_cases h0 : startDelay ≠ 0 <;> simp [h0]

theorem claim_c9_run_resolves_early_witness :
    flatCases exPlan ≠ [] ∧
    (∃ pre post, runTrace 0 exPlan JSVal.undef =
        pre ++ Event.runResolved :: post ∧
      (∀ d, Event.bodyExec d ∉ pre) ∧
      Event.reportCompiled ∉ pre ∧ Event.reporterRun ∉ pre) :=
  ⟨by decide, claim_c9_run_resolves_early 0 exPlan JSVal.undef (by decide)⟩

/-- C10: a null sendReport slips past the loose `!= undefined` check, so
the warning branch is skipped entirely: the reporting phase is identical
to the not-provided path and the auto-probe is attempted; every other
falsy explicit value (false, 0, "") logs the deprecation warning and
issues no request. -/
theorem claim_c10_null_toggle_autoprobes (report : Report)
    (probe : FetchResult) (postOut : PostOutcome) :
    reportPhase JSVal.null report probe postOut =
      reportResults report probe postOut ∧
    (reportPhase JSVal.null report probe postOut).requests.head? =
      some probeRequest ∧
    reportPhase (JSVal.bool false) report probe postOut =
      { requests := [], logs := [deprecationMsg] } ∧
    reportPhase (JSVal.num 0) report probe postOut =
      { requests := [], logs := [deprecationMsg] } ∧
    reportPhase (JSVal.str "") report probe postOut =
      { requests := [], logs := [deprecationMsg] } :=
  ⟨rfl, reportResults_head report probe postOut, rfl, rfl, rfl⟩
